import Mathlib

/-!
Formal model of the 4th-order synchronous machine of PYPOWER-Dynamics
(`src/pydyn/sym_order4.py`), shallowly embedded over the real numbers.

Python dictionaries `signals`, `states`, `states0`, `dsteps` and `params`
become records with one field per key actually used by the machine model;
Python floats are idealised as real numbers; Python lists of floats become
`List ℝ`.  The `.mach` file parser is out of scope (it only fills `params`
and the identity metadata), so a machine value is built directly from its
components.  Methods mutating `self` become functions `Machine → ... → Machine`
(paired with the returned value where the Python method returns one).
-/

set_option autoImplicit false

namespace sym_order4

/-- The electrical parameters read from the machine file (`self.params`). -/
structure Params where
  Ra : ℝ
  Xd : ℝ
  Xdp : ℝ
  Xq : ℝ
  Xqp : ℝ
  Td0p : ℝ
  Tq0p : ℝ
  H : ℝ

/-- The four dynamic state variables (`self.states`, and the stage-0
snapshot `self.states0`). -/
structure States where
  omega : ℝ
  delta : ℝ
  Eqp : ℝ
  Edp : ℝ

/-- The algebraic signal set (`self.signals`). -/
structure Signals where
  Vfd : ℝ
  Id : ℝ
  Iq : ℝ
  Vd : ℝ
  Vq : ℝ
  Vt : ℝ
  P : ℝ
  Q : ℝ
  Pm : ℝ

/-- The per-variable stage-derivative lists (`self.dsteps`). -/
structure DSteps where
  Eqp : List ℝ
  Edp : List ℝ
  omega : List ℝ
  delta : List ℝ

/-- A machine instance: the mutable dictionaries together with the
integration-scheme tag `opt` and the Norton admittance `Yg` computed in
`__init__`. -/
structure Machine where
  signals : Signals
  states : States
  states0 : States
  dsteps : DSteps
  params : Params
  opt : String
  Yg : ℂ

/-- `self.omega_n = 2 * np.pi * 50` set in `__init__` (line 34). -/
noncomputable def omega_n : ℝ := 2 * Real.pi * 50

/-- Equivalent Norton admittance computed in `__init__` (line 39):
`Yg = (Ra - 1j*0.5*(Xdp+Xqp)) / (Ra**2 + Xdp*Xqp)`. -/
noncomputable def mkYg (p : Params) : ℂ :=
  ((p.Ra : ℂ) - Complex.I * 0.5 * ((p.Xdp : ℝ) + p.Xqp : ℝ)) /
    ((p.Ra : ℂ) ^ 2 + ((p.Xdp : ℝ) * p.Xqp : ℝ))

/-- Stage increment `k_Eqp = h * f1` with
`f1 = (Vfd - (Xd - Xdp) * Id - Eqp_0) / Td0p` (lines 193-196),
read off the machine at the start of a `solve_step` call. -/
noncomputable def k_Eqp (m : Machine) (h : ℝ) : ℝ :=
  h * ((m.signals.Vfd - (m.params.Xd - m.params.Xdp) * m.signals.Id -
        m.states.Eqp) / m.params.Td0p)

/-- Stage increment `k_Edp = h * f2` with
`f2 = ((Xq - Xqp) * Iq - Edp_0) / Tq0p` (lines 198-201). -/
noncomputable def k_Edp (m : Machine) (h : ℝ) : ℝ :=
  h * (((m.params.Xq - m.params.Xqp) * m.signals.Iq - m.states.Edp) /
        m.params.Tq0p)

/-- Stage increment `k_omega = h * f3` with
`f3 = 1/(2*H) * (Pm - P)` (lines 204-205). -/
noncomputable def k_omega (m : Machine) (h : ℝ) : ℝ :=
  h * (1 / (2 * m.params.H) * (m.signals.Pm - m.signals.P))

/-- Stage increment `k_delta = h * f4` with
`f4 = omega_n * (omega_0 - 1)` (lines 207-208). -/
noncomputable def k_delta (m : Machine) (h : ℝ) : ℝ :=
  h * (omega_n * (m.states.omega - 1))

/-- `solve_step(h, dstep)` (lines 181-271).  The four stage increments are
computed from the machine at entry; then the state update is dispatched on
the scheme tag and the stage index.  A Python list access
`self.dsteps[...][i]` is modelled by `List.getD i 0`; every call site
verified below supplies a list long enough for the access to be in range.
A stage index matching no branch leaves the machine unchanged, as the
Python `if/elif` chain falls through without mutating anything. -/
noncomputable def solve_step (m : Machine) (h : ℝ) (dstep : ℤ) : Machine :=
  let kE := k_Eqp m h
  let kD := k_Edp m h
  let kO := k_omega m h
  let kδ := k_delta m h
  if m.opt = "mod_euler" then
    if dstep = 0 then
      -- Predictor step (lines 213-222)
      { m with
        states := { Eqp := m.states.Eqp + kE, Edp := m.states.Edp + kD,
                    omega := m.states.omega + kO, delta := m.states.delta + kδ },
        dsteps := { Eqp := [kE], Edp := [kD], omega := [kO], delta := [kδ] } }
    else
      -- Corrector step (lines 223-228)
      { m with
        states := { Eqp := m.states.Eqp + 0.5 * (kE - m.dsteps.Eqp.getD 0 0),
                    Edp := m.states.Edp + 0.5 * (kD - m.dsteps.Edp.getD 0 0),
                    omega := m.states.omega + 0.5 * (kO - m.dsteps.omega.getD 0 0),
                    delta := m.states.delta + 0.5 * (kδ - m.dsteps.delta.getD 0 0) } }
  else if m.opt = "runge_kutta" then
    if dstep = 0 then
      -- Save initial states, advance by half of k1, reset dsteps (lines 233-247)
      { m with
        states0 := { omega := m.states.omega, delta := m.states.delta,
                     Eqp := m.states.Eqp, Edp := m.states.Edp },
        states := { Eqp := m.states.Eqp + 0.5 * kE, Edp := m.states.Edp + 0.5 * kD,
                    omega := m.states.omega + 0.5 * kO, delta := m.states.delta + 0.5 * kδ },
        dsteps := { Eqp := [kE], Edp := [kD], omega := [kO], delta := [kδ] } }
    else if dstep = 1 then
      -- Advance by half of k2 from the state at entry, append k2 (lines 248-256)
      { m with
        states := { Eqp := m.states.Eqp + 0.5 * kE, Edp := m.states.Edp + 0.5 * kD,
                    omega := m.states.omega + 0.5 * kO, delta := m.states.delta + 0.5 * kδ },
        dsteps := { Eqp := m.dsteps.Eqp ++ [kE], Edp := m.dsteps.Edp ++ [kD],
                    omega := m.dsteps.omega ++ [kO], delta := m.dsteps.delta ++ [kδ] } }
    else if dstep = 2 then
      -- Advance by k3 from the state at entry, append k3 (lines 257-265)
      { m with
        states := { Eqp := m.states.Eqp + kE, Edp := m.states.Edp + kD,
                    omega := m.states.omega + kO, delta := m.states.delta + kδ },
        dsteps := { Eqp := m.dsteps.Eqp ++ [kE], Edp := m.dsteps.Edp ++ [kD],
                    omega := m.dsteps.omega ++ [kO], delta := m.dsteps.delta ++ [kδ] } }
    else if dstep = 3 then
      -- Final RK4 combination from the snapshot (lines 266-270); k4 is not appended
      { m with
        states := { Eqp := m.states0.Eqp + 1/6 * (m.dsteps.Eqp.getD 0 0 +
                      2 * m.dsteps.Eqp.getD 1 0 + 2 * m.dsteps.Eqp.getD 2 0 + kE),
                    Edp := m.states0.Edp + 1/6 * (m.dsteps.Edp.getD 0 0 +
                      2 * m.dsteps.Edp.getD 1 0 + 2 * m.dsteps.Edp.getD 2 0 + kD),
                    omega := m.states0.omega + 1/6 * (m.dsteps.omega.getD 0 0 +
                      2 * m.dsteps.omega.getD 1 0 + 2 * m.dsteps.omega.getD 2 0 + kO),
                    delta := m.states0.delta + 1/6 * (m.dsteps.delta.getD 0 0 +
                      2 * m.dsteps.delta.getD 1 0 + 2 * m.dsteps.delta.getD 2 0 + kδ) } }
    else m
  else m

/-- The d-axis projection of the terminal voltage,
`Vd = np.abs(vt) * np.sin(delta - np.angle(vt))` (line 111). -/
noncomputable def Vd_of (m : Machine) (vt : ℂ) : ℝ :=
  Complex.abs vt * Real.sin (m.states.delta - vt.arg)

/-- The q-axis projection of the terminal voltage,
`Vq = np.abs(vt) * np.cos(delta - np.angle(vt))` (line 112). -/
noncomputable def Vq_of (m : Machine) (vt : ℂ) : ℝ :=
  Complex.abs vt * Real.cos (m.states.delta - vt.arg)

/-- `calc_currents(vt)` (lines 106-151): computes the dq currents under one
of the two `Ra` policies, the power output, and the Norton-equivalent
injection `Im`, then writes the signals `Id, Iq, Vd, Vq, P, Q, Vt`.
Returns the updated machine paired with the returned injection. -/
noncomputable def calc_currents (m : Machine) (vt : ℂ) : Machine × ℂ :=
  let Vd := Vd_of m vt
  let Vq := Vq_of m vt
  let IdIq : ℝ × ℝ :=
    if m.params.Ra > 0 then
      let Iq := (-m.params.Ra * (Vq - m.states.Eqp) +
                  m.params.Xdp * (Vd - m.states.Edp)) /
                (m.params.Xdp * m.params.Xqp + m.params.Ra ^ 2)
      (-(Vd - m.states.Edp - m.params.Xqp * Iq) / m.params.Ra, Iq)
    else
      -- Ra = 0 (or if Ra is negative, Ra is ignored)
      ((m.states.Eqp - Vq) / m.params.Xdp, (Vd - m.states.Edp) / m.params.Xqp)
  let Id := IdIq.1
  let Iq := IdIq.2
  let p := (Vd + m.params.Ra * Id) * Id + (Vq + m.params.Ra * Iq) * Iq
  let q := Vq * Id - Vd * Iq
  let In := ((Iq : ℂ) - Complex.I * (Id : ℂ)) *
              Complex.exp (Complex.I * (m.states.delta : ℂ))
  let Im := In + m.Yg * vt
  ({ m with
     signals := { m.signals with
       Id := Id, Iq := Iq, Vd := Vd, Vq := Vq, P := p, Q := q,
       Vt := Real.sqrt (Vd ^ 2 + Vq ^ 2) } }, Im)

/-- Python 3 `round(x)` to an integer: round half to even. -/
noncomputable def roundHalfEven (x : ℝ) : ℤ :=
  if Int.fract x < 1/2 then ⌊x⌋
  else if 1/2 < Int.fract x then ⌊x⌋ + 1
  else if ⌊x⌋ % 2 = 0 then ⌊x⌋ else ⌊x⌋ + 1

/-- Python 3 `round(x, 6)`: round half to even at six decimal places. -/
noncomputable def round6 (x : ℝ) : ℝ :=
  (roundHalfEven (x * 10 ^ 6) : ℝ) / 10 ^ 6

/-- The electrical residual `dEqp = (Vfd - (Xd - Xdp) * Id - Eqp_0) / Td0p`
recomputed by `check_diffs` (line 174). -/
noncomputable def dEqp_of (m : Machine) : ℝ :=
  (m.signals.Vfd - (m.params.Xd - m.params.Xdp) * m.signals.Id -
    m.states.Eqp) / m.params.Td0p

/-- The electrical residual `dEdp = ((Xq - Xqp) * Iq - Edp_0) / Tq0p`
recomputed by `check_diffs` (line 175). -/
noncomputable def dEdp_of (m : Machine) : ℝ :=
  ((m.params.Xq - m.params.Xqp) * m.signals.Iq - m.states.Edp) / m.params.Tq0p

/-- `check_diffs()` (lines 153-179): recompute the two residuals and warn
when either, rounded to six decimals, is nonzero.  The machine is returned
unchanged; the printed warning, which reports both residual values, is
modelled as `some (dEdp, dEqp)`, and silence as `none`. -/
noncomputable def check_diffs (m : Machine) : Machine × Option (ℝ × ℝ) :=
  let dEqp := dEqp_of m
  let dEdp := dEdp_of m
  if round6 dEdp ≠ 0 ∨ round6 dEqp ≠ 0 then
    (m, some (dEdp, dEqp))
  else
    (m, none)

/-! ### Concrete machines used to witness and refute claims -/

/-- A concrete machine: `Vfd = 1`, all other signals `0`, synchronous speed
`omega = 1`, all other states `0`, empty scratch, and the parameter set
`Ra = 0, Xd = 2, Xdp = 1, Xq = 1, Xqp = 1, Td0p = 1, Tq0p = 1, H = 1`. -/
noncomputable def testMachine (o : String) : Machine where
  signals := ⟨1, 0, 0, 0, 0, 0, 0, 0, 0⟩
  states := ⟨1, 0, 0, 0⟩
  states0 := ⟨0, 0, 0, 0⟩
  dsteps := ⟨[], [], [], []⟩
  params := ⟨0, 2, 1, 1, 1, 1, 1, 1⟩
  opt := o
  Yg := 0

/-- A concrete machine at a fixed point of the dynamics: every signal and
every state is `0` except `omega = 1`, so all four stage increments vanish. -/
noncomputable def restMachine (o : String) : Machine where
  signals := ⟨0, 0, 0, 0, 0, 0, 0, 0, 0⟩
  states := ⟨1, 0, 0, 0⟩
  states0 := ⟨0, 0, 0, 0⟩
  dsteps := ⟨[], [], [], []⟩
  params := ⟨0, 2, 1, 1, 1, 1, 1, 1⟩
  opt := o
  Yg := 0

/-- A concrete machine with strictly positive armature resistance
`Ra = 1` (other parameters as in `testMachine`), all states zero except
synchronous speed. -/
noncomputable def posRaMachine : Machine where
  signals := ⟨0, 0, 0, 0, 0, 0, 0, 0, 0⟩
  states := ⟨1, 0, 0, 0⟩
  states0 := ⟨0, 0, 0, 0⟩
  dsteps := ⟨[], [], [], []⟩
  params := ⟨1, 2, 1, 1, 1, 1, 1, 1⟩
  opt := "runge_kutta"
  Yg := 0

/-- The machine left by `runge_kutta` stage 0 on `testMachine` with
`h = 1`: snapshot saved, `Eqp` advanced by half of `k1 = 1`. -/
noncomputable def rkM1 : Machine :=
  ⟨⟨1, 0, 0, 0, 0, 0, 0, 0, 0⟩, ⟨1, 0, 1/2, 0⟩, ⟨1, 0, 0, 0⟩,
    ⟨[1], [0], [0], [0]⟩, ⟨0, 2, 1, 1, 1, 1, 1, 1⟩, "runge_kutta", 0⟩

/-- The machine left by `runge_kutta` stage 1 on `rkM1` with `h = 1`:
`k2 = 1/2` and `Eqp` advances cumulatively to `3/4`. -/
noncomputable def rkM2 : Machine :=
  ⟨⟨1, 0, 0, 0, 0, 0, 0, 0, 0⟩, ⟨1, 0, 3/4, 0⟩, ⟨1, 0, 0, 0⟩,
    ⟨[1, 1/2], [0, 0], [0, 0], [0, 0]⟩, ⟨0, 2, 1, 1, 1, 1, 1, 1⟩,
    "runge_kutta", 0⟩

/-- The machine left by `runge_kutta` stage 2 on `rkM2` with `h = 1`:
`k3 = 1/4` and `Eqp` advances cumulatively to `1`. -/
noncomputable def rkM3 : Machine :=
  ⟨⟨1, 0, 0, 0, 0, 0, 0, 0, 0⟩, ⟨1, 0, 1, 0⟩, ⟨1, 0, 0, 0⟩,
    ⟨[1, 1/2, 1/4], [0, 0, 0], [0, 0, 0], [0, 0, 0]⟩,
    ⟨0, 2, 1, 1, 1, 1, 1, 1⟩, "runge_kutta", 0⟩

/-! ### Helper lemmas shared across the claim theorems -/

/-- `solve_step` touches only `states`, `states0` and `dsteps`: the signal
set, the parameters, the scheme tag and the Norton admittance all pass
through every branch untouched. -/
theorem solve_step_frame_aux (m : Machine) (h : ℝ) (d : ℤ) :
    (solve_step m h d).signals = m.signals ∧
    (solve_step m h d).params = m.params ∧
    (solve_step m h d).opt = m.opt ∧
    (solve_step m h d).Yg = m.Yg := by
  unfold solve_step
  split_ifs <;> exact ⟨rfl, rfl, rfl, rfl⟩

/-! ### Claim theorems -/

/-- Claim C10: for every scheme and every stage index, `solve_step` writes
only the state variables and the integrator scratch: the whole `Signals`
record (`Vfd, Id, Iq, Vd, Vq, Vt, P, Q, Pm`), the whole `Params` record,
the scheme tag and `Yg` are unchanged after the call. -/
theorem solve_step_frame (m : Machine) (h : ℝ) (d : ℤ) :
    (solve_step m h d).signals = m.signals ∧
    (solve_step m h d).params = m.params ∧
    (solve_step m h d).opt = m.opt ∧
    (solve_step m h d).Yg = m.Yg :=
  solve_step_frame_aux m h d

/-- Claim C7: in the `runge_kutta` scheme, `solve_step` with a stage index
outside `{0, 1, 2, 3}` is a silent no-op: no error is possible (the
function is total) and the machine — in particular its `states`, `states0`
and `dsteps` — is returned unchanged. -/
theorem rk4_invalid_stage_noop (m : Machine) (h : ℝ) (d : ℤ)
    (hopt : m.opt = "runge_kutta")
    (h0 : d ≠ 0) (h1 : d ≠ 1) (h2 : d ≠ 2) (h3 : d ≠ 3) :
    solve_step m h d = m := by
  unfold solve_step
  rw [hopt]
  simp [h0, h1, h2, h3]

/-- Witness for C7: stage index `5` on a concrete `runge_kutta` machine
leaves the machine unchanged. -/
theorem rk4_invalid_stage_noop_witness :
    solve_step (testMachine "runge_kutta") 1 5 = testMachine "runge_kutta" :=
  rk4_invalid_stage_noop (testMachine "runge_kutta") 1 5 rfl
    (by decide) (by decide) (by decide) (by decide)

/-- Claim C2: in the `runge_kutta` scheme, after `solve_step` at stage 3
each state variable equals the stage-0 snapshot plus
`(1/6)·(k1 + 2·k2 + 2·k3 + k4)`, where `k1, k2, k3` are the stored stage
increments and `k4` is the increment computed at stage 3 from the machine
at entry.  Stated for an arbitrary machine whose stored lists hold the
three increments left by stages 0-2. -/
theorem rk4_stage3_combination (sig : Signals) (st st0 : States) (p : Params)
    (yg : ℂ) (h kE1 kE2 kE3 kD1 kD2 kD3 kO1 kO2 kO3 kA1 kA2 kA3 : ℝ) :
    let m : Machine :=
      ⟨sig, st, st0,
        ⟨[kE1, kE2, kE3], [kD1, kD2, kD3], [kO1, kO2, kO3], [kA1, kA2, kA3]⟩,
        p, "runge_kutta", yg⟩
    (solve_step m h 3).states.Eqp =
        st0.Eqp + 1/6 * (kE1 + 2 * kE2 + 2 * kE3 + k_Eqp m h) ∧
    (solve_step m h 3).states.Edp =
        st0.Edp + 1/6 * (kD1 + 2 * kD2 + 2 * kD3 + k_Edp m h) ∧
    (solve_step m h 3).states.omega =
        st0.omega + 1/6 * (kO1 + 2 * kO2 + 2 * kO3 + k_omega m h) ∧
    (solve_step m h 3).states.delta =
        st0.delta + 1/6 * (kA1 + 2 * kA2 + 2 * kA3 + k_delta m h) := by
  refine ⟨?_, ?_, ?_, ?_⟩ <;> simp [solve_step]

/-- Counterexample to claim C8 as stated: running the four `runge_kutta`
stages on a concrete machine leaves only THREE stored increments per
variable — stage 3 computes `k4` but never appends it, so the stored list
does not have four elements. -/
theorem rk4_stage3_no_append_cex :
    (solve_step (solve_step (solve_step (solve_step
        (testMachine "runge_kutta") 1 0) 1 1) 1 2) 1 3).dsteps.Eqp.length = 3 ∧
    ¬ (solve_step (solve_step (solve_step (solve_step
        (testMachine "runge_kutta") 1 0) 1 1) 1 2) 1 3).dsteps.Eqp.length = 4 := by
  constructor <;> simp [solve_step, testMachine]

/-- Claim C8 (amended): in the `runge_kutta` scheme the per-variable
stage-derivative lists are reset at stage 0 of each macro step, and stages
0, 1 and 2 each append their own `k` value, so after stage
`s ∈ {0, 1, 2}` each list contains exactly the increments `k1` through
`k(s+1)` in order; stage 3 computes `k4` but does not append it, leaving
the three stored increments unchanged. -/
theorem rk4_dsteps_evolution (sig : Signals) (st st0 : States) (ds : DSteps)
    (p : Params) (yg : ℂ) (ha hb hc hd : ℝ) :
    let m0 : Machine := ⟨sig, st, st0, ds, p, "runge_kutta", yg⟩
    let m1 := solve_step m0 ha 0
    let m2 := solve_step m1 hb 1
    let m3 := solve_step m2 hc 2
    let m4 := solve_step m3 hd 3
    m1.dsteps = ⟨[k_Eqp m0 ha], [k_Edp m0 ha], [k_omega m0 ha],
                 [k_delta m0 ha]⟩ ∧
    m2.dsteps = ⟨[k_Eqp m0 ha, k_Eqp m1 hb], [k_Edp m0 ha, k_Edp m1 hb],
                 [k_omega m0 ha, k_omega m1 hb],
                 [k_delta m0 ha, k_delta m1 hb]⟩ ∧
    m3.dsteps = ⟨[k_Eqp m0 ha, k_Eqp m1 hb, k_Eqp m2 hc],
                 [k_Edp m0 ha, k_Edp m1 hb, k_Edp m2 hc],
                 [k_omega m0 ha, k_omega m1 hb, k_omega m2 hc],
                 [k_delta m0 ha, k_delta m1 hb, k_delta m2 hc]⟩ ∧
    m4.dsteps = m3.dsteps := by
  refine ⟨?_, ?_, ?_, ?_⟩ <;> simp [solve_step]

/-- Claim C1 (refuted by evaluation; the code contradicts the claim): in
the `runge_kutta` scheme, stages 1 and 2 advance each state variable from
the state at ENTRY of the call — i.e. cumulatively from the result of the
preceding stage — and NOT from the stage-0 snapshot `states0` as the claim
states.  On the concrete machine `testMachine "runge_kutta"` with `h = 1`,
stage 1 leaves `Eqp = 3/4` while the claim's snapshot-based value
`states0.Eqp + 0.5·k2` is `1/4`, and stage 2 leaves `Eqp = 1` while the
claim's snapshot-based value `states0.Eqp + k3` is again `1/4`. -/
theorem rk4_stage12_not_from_snapshot :
    (solve_step (testMachine "runge_kutta") 1 0 = rkM1 ∧
     solve_step rkM1 1 1 = rkM2 ∧
     solve_step rkM2 1 2 = rkM3) ∧
    (rkM2.states.Eqp = rkM1.states.Eqp + 0.5 * k_Eqp rkM1 1 ∧
     rkM2.states.Eqp = 3/4 ∧
     rkM1.states0.Eqp + 0.5 * k_Eqp rkM1 1 = 1/4 ∧
     rkM2.states.Eqp ≠ rkM1.states0.Eqp + 0.5 * k_Eqp rkM1 1) ∧
    (rkM3.states.Eqp = rkM2.states.Eqp + k_Eqp rkM2 1 ∧
     rkM3.states.Eqp = 1 ∧
     rkM2.states0.Eqp + k_Eqp rkM2 1 = 1/4 ∧
     rkM3.states.Eqp ≠ rkM2.states0.Eqp + k_Eqp rkM2 1) := by
  refine ⟨⟨?_, ?_, ?_⟩, ⟨?_, ?_, ?_, ?_⟩, ⟨?_, ?_, ?_, ?_⟩⟩ <;>
    norm_num [solve_step, k_Eqp, k_Edp, k_omega, k_delta, testMachine,
      rkM1, rkM2, rkM3, Machine.mk.injEq, States.mk.injEq,
      Signals.mk.injEq, DSteps.mk.injEq, Params.mk.injEq] <;>
    decide

/-- Claim C3: in the `mod_euler` scheme, the corrector stage sets each
state variable to the value read at the start of the corrector call plus
`0.5·(corrector increment − stored predictor increment)`; and when every
corrector-stage increment equals the corresponding predictor-stage
increment, the state after the corrector equals the predicted state
exactly.  `mPred` is the machine left by the predictor and `mc` the
machine the corrector is called on (same states, signals refreshed by the
caller in between). -/
theorem mod_euler_corrector (sig sig2 : Signals) (st st0 : States)
    (ds : DSteps) (p : Params) (yg : ℂ) (h : ℝ) :
    let m0 : Machine := ⟨sig, st, st0, ds, p, "mod_euler", yg⟩
    let mPred := solve_step m0 h 0
    let mc : Machine := { mPred with signals := sig2 }
    ((solve_step mc h 1).states.Eqp =
        mc.states.Eqp + 0.5 * (k_Eqp mc h - k_Eqp m0 h) ∧
     (solve_step mc h 1).states.Edp =
        mc.states.Edp + 0.5 * (k_Edp mc h - k_Edp m0 h) ∧
     (solve_step mc h 1).states.omega =
        mc.states.omega + 0.5 * (k_omega mc h - k_omega m0 h) ∧
     (solve_step mc h 1).states.delta =
        mc.states.delta + 0.5 * (k_delta mc h - k_delta m0 h)) ∧
    ((k_Eqp mc h = k_Eqp m0 h ∧ k_Edp mc h = k_Edp m0 h ∧
      k_omega mc h = k_omega m0 h ∧ k_delta mc h = k_delta m0 h) →
      (solve_step mc h 1).states = mPred.states) := by
  refine ⟨⟨?_, ?_, ?_, ?_⟩, ?_⟩ <;> simp [solve_step]
  intro e1 e2 e3 e4
  simp [e1, e2, e3, e4]

/-- Witness for C3: on a machine at a fixed point of the dynamics (all
increments zero, so the corrector increments equal the predictor ones) the
corrector returns exactly the predicted state. -/
theorem mod_euler_corrector_witness :
    (solve_step { solve_step (restMachine "mod_euler") 1 0 with
        signals := (restMachine "mod_euler").signals } 1 1).states =
      (solve_step (restMachine "mod_euler") 1 0).states :=
  (mod_euler_corrector ⟨0, 0, 0, 0, 0, 0, 0, 0, 0⟩ ⟨0, 0, 0, 0, 0, 0, 0, 0, 0⟩
      ⟨1, 0, 0, 0⟩ ⟨0, 0, 0, 0⟩ ⟨[], [], [], []⟩ ⟨0, 2, 1, 1, 1, 1, 1, 1⟩
      0 1).2
    (by norm_num [k_Eqp, k_Edp, k_omega, k_delta, solve_step, restMachine])

/-- Claim C4: `check_diffs` recomputes the two electrical residuals from
the current states, signals and parameters, returns the machine unchanged
(no mutation, and the function is total so nothing is raised), and warns —
reporting BOTH residual values — exactly when either residual rounded to
six decimal digits is nonzero. -/
theorem check_diffs_spec (m : Machine) :
    (check_diffs m).1 = m ∧
    ((check_diffs m).2 = some (dEdp_of m, dEqp_of m) ↔
      round6 (dEdp_of m) ≠ 0 ∨ round6 (dEqp_of m) ≠ 0) ∧
    ((check_diffs m).2 = none ↔
      round6 (dEdp_of m) = 0 ∧ round6 (dEqp_of m) = 0) := by
  unfold check_diffs
  dsimp only
  split_ifs with hw
  all_goals dsimp only
  · refine ⟨rfl, ⟨fun _ => hw, fun _ => rfl⟩, ?_⟩
    simp only [reduceCtorEq, false_iff, not_and]
    intro ha hb
    exact hw.elim (fun hx => hx ha) (fun hx => hx hb)
  · push_neg at hw
    refine ⟨rfl, ?_, ⟨fun _ => hw, fun _ => rfl⟩⟩
    simp only [reduceCtorEq, false_iff, not_or, not_not]
    exact hw

/-- Claim C9: `calc_currents` is a pure function of the current states,
the parameters, the precomputed `Yg` and the supplied voltage.  First
group: calling it twice in a row with the same voltage returns the same
injection and the identical machine (so every signal it writes is left
with identical values).  Second group: two machines agreeing on states,
parameters and `Yg` — whatever their signals, snapshot, scratch lists or
scheme tag, i.e. whatever the step history — get the same injection and
the same values in every signal the call writes. -/
theorem calc_currents_pure (sig sig2 : Signals) (st st0 st02 : States)
    (ds ds2 : DSteps) (p : Params) (o o2 : String) (yg : ℂ) (vt : ℂ) :
    let m : Machine := ⟨sig, st, st0, ds, p, o, yg⟩
    let m2 : Machine := ⟨sig2, st, st02, ds2, p, o2, yg⟩
    ((calc_currents (calc_currents m vt).1 vt).2 = (calc_currents m vt).2 ∧
     (calc_currents (calc_currents m vt).1 vt).1 = (calc_currents m vt).1) ∧
    ((calc_currents m2 vt).2 = (calc_currents m vt).2 ∧
     (calc_currents m2 vt).1.signals.Id = (calc_currents m vt).1.signals.Id ∧
     (calc_currents m2 vt).1.signals.Iq = (calc_currents m vt).1.signals.Iq ∧
     (calc_currents m2 vt).1.signals.Vd = (calc_currents m vt).1.signals.Vd ∧
     (calc_currents m2 vt).1.signals.Vq = (calc_currents m vt).1.signals.Vq ∧
     (calc_currents m2 vt).1.signals.P = (calc_currents m vt).1.signals.P ∧
     (calc_currents m2 vt).1.signals.Q = (calc_currents m vt).1.signals.Q ∧
     (calc_currents m2 vt).1.signals.Vt = (calc_currents m vt).1.signals.Vt) :=
  ⟨⟨rfl, rfl⟩, ⟨rfl, rfl, rfl, rfl, rfl, rfl, rfl, rfl⟩⟩

/-- Claim C5: `calc_currents` selects between two policies on whether `Ra`
is strictly positive.  When `Ra > 0` (and the denominator
`Xdp·Xqp + Ra²` is nonzero) the computed currents solve the coupled 2×2
linear system relating the dq voltages to the transient EMFs,
`Vq = Eqp − Ra·Iq − Xdp·Id` and `Vd = Edp − Ra·Id + Xqp·Iq`; when
`Ra ≤ 0` they are the decoupled scalar divisions
`Id = (Eqp − Vq)/Xdp` and `Iq = (Vd − Edp)/Xqp`, with `Vd, Vq` the dq
projections of `vt` by the current rotor angle. -/
theorem calc_currents_policies (m : Machine) (vt : ℂ) :
    (m.params.Ra > 0 →
      m.params.Xdp * m.params.Xqp + m.params.Ra ^ 2 ≠ 0 →
      Vq_of m vt = m.states.Eqp -
          m.params.Ra * (calc_currents m vt).1.signals.Iq -
          m.params.Xdp * (calc_currents m vt).1.signals.Id ∧
      Vd_of m vt = m.states.Edp -
          m.params.Ra * (calc_currents m vt).1.signals.Id +
          m.params.Xqp * (calc_currents m vt).1.signals.Iq) ∧
    (¬ m.params.Ra > 0 →
      (calc_currents m vt).1.signals.Id =
          (m.states.Eqp - Vq_of m vt) / m.params.Xdp ∧
      (calc_currents m vt).1.signals.Iq =
          (Vd_of m vt - m.states.Edp) / m.params.Xqp) := by
  constructor
  · intro hra hden
    have hRa : m.params.Ra ≠ 0 := ne_of_gt hra
    unfold calc_currents
    dsimp only
    rw [if_pos hra]
    dsimp only
    constructor
    · field_simp
      ring
    · field_simp
      ring
  · intro hra
    unfold calc_currents
    dsimp only
    rw [if_neg hra]
    exact ⟨rfl, rfl⟩

/-- Witness for C5: both policies exercised at concrete machines and the
terminal voltage `0` — `posRaMachine` has `Ra = 1 > 0` with denominator
`2 ≠ 0`, and `testMachine` has `Ra = 0`. -/
theorem calc_currents_policies_witness :
    (Vq_of posRaMachine 0 = posRaMachine.states.Eqp -
        posRaMachine.params.Ra * (calc_currents posRaMachine 0).1.signals.Iq -
        posRaMachine.params.Xdp * (calc_currents posRaMachine 0).1.signals.Id ∧
     Vd_of posRaMachine 0 = posRaMachine.states.Edp -
        posRaMachine.params.Ra * (calc_currents posRaMachine 0).1.signals.Id +
        posRaMachine.params.Xqp * (calc_currents posRaMachine 0).1.signals.Iq) ∧
    ((calc_currents (testMachine "runge_kutta") 0).1.signals.Id =
        ((testMachine "runge_kutta").states.Eqp -
          Vq_of (testMachine "runge_kutta") 0) /
          (testMachine "runge_kutta").params.Xdp ∧
     (calc_currents (testMachine "runge_kutta") 0).1.signals.Iq =
        (Vd_of (testMachine "runge_kutta") 0 -
          (testMachine "runge_kutta").states.Edp) /
          (testMachine "runge_kutta").params.Xqp) :=
  ⟨(calc_currents_policies posRaMachine 0).1
      (by norm_num [posRaMachine]) (by norm_num [posRaMachine]),
   (calc_currents_policies (testMachine "runge_kutta") 0).2
      (by norm_num [testMachine])⟩

/-- Claim C6: the injection returned by `calc_currents` equals the dq
current `Iq − j·Id` (the very values written into the signals) rotated
into the network frame by `exp(j·delta)`, plus `Yg·vt`, where `Yg` is the
fixed admittance `(Ra − j·0.5·(Xdp+Xqp))/(Ra² + Xdp·Xqp)` computed at
construction; neither `calc_currents`, `solve_step` nor `check_diffs`
ever changes `Yg`. -/
theorem calc_currents_injection (sig : Signals) (st st0 : States)
    (ds : DSteps) (p : Params) (o : String) (vt : ℂ) (h : ℝ) (d : ℤ) :
    let m : Machine := ⟨sig, st, st0, ds, p, o, mkYg p⟩
    (calc_currents m vt).2 =
      (((calc_currents m vt).1.signals.Iq : ℂ) -
          Complex.I * ((calc_currents m vt).1.signals.Id : ℂ)) *
        Complex.exp (Complex.I * (st.delta : ℂ)) + mkYg p * vt ∧
    (calc_currents m vt).1.Yg = mkYg p ∧
    (solve_step m h d).Yg = mkYg p ∧
    (check_diffs m).1.Yg = mkYg p := by
  refine ⟨rfl, rfl, ?_, ?_⟩
  · exact (solve_step_frame_aux _ h d).2.2.2
  · unfold check_diffs
    dsimp only
    split_ifs <;> rfl

end sym_order4
